import Mathlib

/-!
Verification of the pybacktest `Backtest` pipeline (`pybacktest/backtest.py`)
against its natural-language specification.

Series are shallowly embedded as `List (Option _)` over the shared integer
time index `0, 1, 2, ...`; a `none` entry models a pandas `NaN`.  Prices are
rationals.  Fallible operations return `Except` or `Option`.
-/

namespace Pybacktest

/-- A row of the trade ledger produced by `Backtest.trades`:
timestamp, position, execution price and volume (`none` = NaN). -/
structure TradeRow where
  t : Nat
  pos : Int
  price : ℚ
  vol : Option Int
deriving DecidableEq

/-- The inner join of the position column with the (index-aligned) price
column, keeping exactly the rows where both are defined; mirrors
`pandas.DataFrame({'pos': positions}); t['price'] = trade_price; t.dropna()`
in `Backtest.trades`.  The price list is aligned on the position index, so a
position index beyond the price list reads as NaN and is dropped. -/
def joinedAux : Nat → List (Option Int) → List (Option ℚ) → List (Nat × Int × ℚ)
  | _, [], _ => []
  | _, _ :: _, [] => []
  | i, p? :: ps, q? :: qs =>
    match p?, q? with
    | some p, some q => (i, p, q) :: joinedAux (i + 1) ps qs
    | _, _ => joinedAux (i + 1) ps qs

/-- `t['vol'] = t.pos.diff()`: the discrete first difference of the `pos`
column over the surviving rows, carrying the previous surviving position;
the first surviving row gets `none` (NaN). -/
def addVol : Option Int → List (Nat × Int × ℚ) → List TradeRow
  | _, [] => []
  | prev, (t, p, q) :: rest =>
    ⟨t, p, q, prev.map (fun x => p - x)⟩ :: addVol (some p) rest

/-- `Backtest.trades`: join positions with trade prices, drop rows with any
NaN, then compute volume as the first difference of the position column. -/
def trades (pos : List (Option Int)) (price : List (Option ℚ)) : List TradeRow :=
  addVol none (joinedAux 0 pos price)

/-- pandas `Series.shift(-1)` on a list: entry `i` becomes the entry
originally at `i + 1`; the last entry becomes NaN. -/
def shiftNeg1 (l : List (Option ℚ)) : List (Option ℚ) :=
  l.drop 1 ++ [none]

/-- `Backtest.default_price = self.ohlc.O.shift(-1)`: the open price of the
next bar. -/
def default_price (openCol : List (Option ℚ)) : List (Option ℚ) :=
  shiftNeg1 openCol

/- ### Helper lemmas about the trade ledger -/

theorem addVol_map_proj (prev : Option Int) (l : List (Nat × Int × ℚ)) :
    (addVol prev l).map (fun r => (r.t, r.pos, r.price)) = l := by
  induction l generalizing prev with
  | nil => rfl
  | cons x xs ih =>
    obtain ⟨t, p, q⟩ := x
    simp [addVol, ih]

theorem addVol_head_vol (x : Int) (l : List (Nat × Int × ℚ)) (r : TradeRow)
    (h : (addVol (some x) l)[0]? = some r) : r.vol = some (r.pos - x) := by
  cases l with
  | nil => simp [addVol] at h
  | cons y ys =>
    obtain ⟨t, p, q⟩ := y
    simp [addVol] at h
    subst h
    rfl

theorem addVol_first_vol (l : List (Nat × Int × ℚ)) (r : TradeRow)
    (h : (addVol none l)[0]? = some r) : r.vol = none := by
  cases l with
  | nil => simp [addVol] at h
  | cons y ys =>
    obtain ⟨t, p, q⟩ := y
    simp [addVol] at h
    subst h
    rfl

theorem addVol_diff (l : List (Nat × Int × ℚ)) (prev : Option Int) (i : Nat)
    (r1 r2 : TradeRow)
    (h1 : (addVol prev l)[i]? = some r1)
    (h2 : (addVol prev l)[i + 1]? = some r2) :
    r2.vol = some (r2.pos - r1.pos) := by
  induction l generalizing prev i with
  | nil => simp [addVol] at h1
  | cons y ys ih =>
    obtain ⟨t, p, q⟩ := y
    cases i with
    | zero =>
      simp [addVol] at h1 h2
      have hpos : r1.pos = p := by rw [← h1]
      rw [hpos]
      exact addVol_head_vol p ys r2 h2
    | succ j =>
      simp [addVol] at h1 h2
      exact ih (some p) j h1 h2

/-- Membership in the joined (pre-volume) ledger characterises exactly the
indices where both position and aligned price are defined. -/
theorem joinedAux_mem (pos : List (Option Int)) (price : List (Option ℚ))
    (i t : Nat) (p : Int) (q : ℚ) :
    (t, p, q) ∈ joinedAux i pos price ↔
      ∃ k, t = i + k ∧ pos[k]? = some (some p) ∧
        price[k]? = some (some q) := by
  induction pos generalizing price i with
  | nil =>
    simp [joinedAux]
  | cons p? ps ih =>
    cases price with
    | nil =>
      simp [joinedAux]
    | cons q? qs =>
      match p?, q? with
      | some a, some b =>
        simp only [joinedAux, List.mem_cons, ih]
        constructor
        · rintro (heq | ⟨k, hk, hp, hq⟩)
          · refine ⟨0, ?_, ?_, ?_⟩ <;> simp_all
          · exact ⟨k + 1, by omega, by simpa using hp, by simpa using hq⟩
        · rintro ⟨k, hk, hp, hq⟩
          cases k with
          | zero =>
            left
            simp at hp hq
            simp_all
          | succ m =>
            right
            exact ⟨m, by omega, by simpa using hp, by simpa using hq⟩
      | some a, none =>
        simp only [joinedAux, ih]
        constructor
        · rintro ⟨k, hk, hp, hq⟩
          exact ⟨k + 1, by omega, by simpa using hp, by simpa using hq⟩
        · rintro ⟨k, hk, hp, hq⟩
          cases k with
          | zero => simp at hq
          | succ m =>
            exact ⟨m, by omega, by simpa using hp, by simpa using hq⟩
      | none, some b =>
        simp only [joinedAux, ih]
        constructor
        · rintro ⟨k, hk, hp, hq⟩
          exact ⟨k + 1, by omega, by simpa using hp, by simpa using hq⟩
        · rintro ⟨k, hk, hp, hq⟩
          cases k with
          | zero => simp at hp
          | succ m =>
            exact ⟨m, by omega, by simpa using hp, by simpa using hq⟩
      | none, none =>
        simp only [joinedAux, ih]
        constructor
        · rintro ⟨k, hk, hp, hq⟩
          exact ⟨k + 1, by omega, by simpa using hp, by simpa using hq⟩
        · rintro ⟨k, hk, hp, hq⟩
          cases k with
          | zero => simp at hp
          | succ m =>
            exact ⟨m, by omega, by simpa using hp, by simpa using hq⟩

/-- A ledger row's `t`, `pos`, `price` fields always come from defined
entries of the underlying position and price columns at index `t`. -/
theorem trades_mem_defined (pos : List (Option Int)) (price : List (Option ℚ))
    (r : TradeRow) (h : r ∈ trades pos price) :
    pos[r.t]? = some (some r.pos) ∧ price[r.t]? = some (some r.price) := by
  have hmem : (r.t, r.pos, r.price) ∈ joinedAux 0 pos price := by
    have := addVol_map_proj none (joinedAux 0 pos price)
    rw [← this]
    exact List.mem_map_of_mem _ h
  obtain ⟨k, hk, hp, hq⟩ := (joinedAux_mem pos price 0 r.t r.pos r.price).mp hmem
  have : k = r.t := by omega
  subst this
  exact ⟨hp, hq⟩

/-- Conversely, every index with a defined position and a defined aligned
price shows up as a ledger row. -/
theorem trades_row_of_defined (pos : List (Option Int)) (price : List (Option ℚ))
    (t : Nat) (p : Int) (q : ℚ)
    (hp : pos[t]? = some (some p)) (hq : price[t]? = some (some q)) :
    ∃ r ∈ trades pos price, r.t = t ∧ r.pos = p ∧ r.price = q := by
  have hmem : (t, p, q) ∈ joinedAux 0 pos price :=
    (joinedAux_mem pos price 0 t p q).mpr ⟨t, by omega, hp, hq⟩
  have hmap := addVol_map_proj none (joinedAux 0 pos price)
  rw [← hmap] at hmem
  obtain ⟨r, hr, hproj⟩ := List.mem_map.mp hmem
  refine ⟨r, hr, ?_, ?_, ?_⟩
  · exact congrArg Prod.fst hproj
  · exact congrArg (fun x => x.2.1) hproj
  · exact congrArg (fun x => x.2.2) hproj

/-- C1.  In the ledger returned by `trades`, the volume column is the
discrete first difference of the position column over the surviving rows:
the first surviving row has NaN volume, and each later surviving row has
volume = its position minus the position of the immediately preceding
surviving row. -/
theorem C1_trades_volume_is_position_diff (pos : List (Option Int))
    (price : List (Option ℚ)) :
    (∀ r, (trades pos price)[0]? = some r → r.vol = none) ∧
    (∀ i r1 r2, (trades pos price)[i]? = some r1 →
      (trades pos price)[i + 1]? = some r2 →
      r2.vol = some (r2.pos - r1.pos)) := by
  constructor
  · intro r h
    exact addVol_first_vol _ r h
  · intro i r1 r2 h1 h2
    exact addVol_diff _ none i r1 r2 h1 h2

/-- Witness for C1 at a concrete input. -/
theorem C1_witness :
    (⟨1, 3, 6, some 2⟩ : TradeRow).vol = some ((3 : Int) - 1) :=
  (C1_trades_volume_is_position_diff [some 1, some 3] [some 5, some 6]).2
    0 ⟨0, 1, 5, none⟩ ⟨1, 3, 6, some 2⟩ (by decide) (by decide)

/-- C2 (amended).  A timestamp appears as a trade-ledger row if and only if
both the position and the aligned resolved price are defined (non-NaN)
there; `dropna` removes a row when either column is NaN, not only when the
position is. -/
theorem C2_trades_row_iff_defined (pos : List (Option Int))
    (price : List (Option ℚ)) (t : Nat) :
    (∃ r ∈ trades pos price, r.t = t) ↔
      (∃ p, pos[t]? = some (some p)) ∧ (∃ q, price[t]? = some (some q)) := by
  constructor
  · rintro ⟨r, hr, rfl⟩
    obtain ⟨hp, hq⟩ := trades_mem_defined pos price r hr
    exact ⟨⟨r.pos, hp⟩, ⟨r.price, hq⟩⟩
  · rintro ⟨⟨p, hp⟩, ⟨q, hq⟩⟩
    obtain ⟨r, hr, ht, _, _⟩ := trades_row_of_defined pos price t p q hp hq
    exact ⟨r, hr, ht⟩

/-- Witness for C2's amended theorem at a concrete input. -/
theorem C2_witness :
    ∃ r ∈ trades [some 1] [some 5], r.t = 0 :=
  (C2_trades_row_iff_defined [some 1] [some 5] 0).mpr
    ⟨⟨1, by decide⟩, ⟨5, by decide⟩⟩

theorem shiftNeg1_last (l : List (Option ℚ)) :
    (shiftNeg1 l)[l.length - 1]? = some none := by
  unfold shiftNeg1
  have hlen : (l.drop 1).length = l.length - 1 := by simp
  rw [List.getElem?_append_right (by omega)]
  simp [hlen]

/-- C10.  Every ledger row has a non-missing price: a timestamp whose
resolved price is NaN never appears in `trades`, even with a defined
position there; in particular under default next-bar-open pricing the final
bar (whose shifted open is NaN) never appears as a ledger row. -/
theorem C10_missing_price_rows_excluded (pos : List (Option Int))
    (price : List (Option ℚ)) (openCol : List (Option ℚ)) (t : Nat) :
    (price[t]? = some none → ∀ r ∈ trades pos price, r.t ≠ t) ∧
    (pos.length = openCol.length → 1 ≤ pos.length →
      ∀ r ∈ trades pos (default_price openCol), r.t ≠ pos.length - 1) := by
  constructor
  · intro hnan r hr ht
    obtain ⟨_, hq⟩ := trades_mem_defined pos price r hr
    rw [ht, hnan] at hq
    exact Option.noConfusion (Option.some.inj hq)
  · intro hlen hpos r hr ht
    obtain ⟨_, hq⟩ := trades_mem_defined pos (default_price openCol) r hr
    have hlast : (default_price openCol)[pos.length - 1]? = some none := by
      have : pos.length - 1 = openCol.length - 1 := by omega
      rw [this]
      exact shiftNeg1_last openCol
    rw [ht, hlast] at hq
    exact Option.noConfusion (Option.some.inj hq)

/-- Witness for C10 at a concrete input. -/
theorem C10_witness : (⟨0, 1, 5, none⟩ : TradeRow).t ≠ 1 :=
  (C10_missing_price_rows_excluded [some 1, some 2] [some 5, none]
    [some 5, none] 1).1 (by decide) ⟨0, 1, 5, none⟩ (by decide)

/-- One timestamp's worth of the four canonical boolean signal columns
`Buy`, `Sell`, `Short`, `Cover` (`Backtest._sig_mask_int`). -/
structure SigRow where
  Buy : Bool
  Sell : Bool
  Short : Bool
  Cover : Bool
deriving DecidableEq

/-- One timestamp's worth of the four canonical price columns `BuyPrice`,
`SellPrice`, `ShortPrice`, `CoverPrice` (`Backtest._pr_mask_int`);
`none` = NaN. -/
structure PriceRow where
  BuyPrice : Option ℚ
  SellPrice : Option ℚ
  ShortPrice : Option ℚ
  CoverPrice : Option ℚ
deriving DecidableEq

/-- pandas boolean-mask assignment `dp[s] = p[s]`: wherever the mask is
true, the (possibly NaN) value of `p` replaces the current entry of `dp`. -/
def maskAssign : List (Option ℚ) → List Bool → List (Option ℚ) → List (Option ℚ)
  | [], _, _ => []
  | dp, [], _ => dp
  | dp, _, [] => dp
  | d :: dp, s :: ss, q? :: ps => (if s then q? else d) :: maskAssign dp ss ps

/-- The first value when defined, else the second: the per-entry rule of
pandas `combine_first`. -/
def orDefault (x y : Option ℚ) : Option ℚ :=
  match x with
  | some v => some v
  | none => y

/-- pandas `a.combine_first(b)`: entry of `a` where defined, else entry of
`b`; covers the union of the two integer indices. -/
def combineFirst : List (Option ℚ) → List (Option ℚ) → List (Option ℚ)
  | [], b => b
  | x :: xs, [] => x :: xs
  | x :: xs, y :: ys => orDefault x y :: combineFirst xs ys

/-- `Backtest.trade_price`: if no price frame was extracted, return the
next-bar open directly; otherwise start from an all-NaN series on the price
index and perform `dp[s] = p[s]` for the pairs (BuyPrice, Buy),
(SellPrice, Sell), (ShortPrice, Short), (CoverPrice, Cover) in that order,
finally filling the remaining NaNs from `default_price`. -/
def trade_price (prices : Option (List PriceRow)) (signals : List SigRow)
    (openCol : List (Option ℚ)) : List (Option ℚ) :=
  match prices with
  | none => shiftNeg1 openCol
  | some pr =>
    let dp0 : List (Option ℚ) := List.replicate pr.length none
    let dp1 := maskAssign dp0 (signals.map (fun r => r.Buy))
      (pr.map (fun q => q.BuyPrice))
    let dp2 := maskAssign dp1 (signals.map (fun r => r.Sell))
      (pr.map (fun q => q.SellPrice))
    let dp3 := maskAssign dp2 (signals.map (fun r => r.Short))
      (pr.map (fun q => q.ShortPrice))
    let dp4 := maskAssign dp3 (signals.map (fun r => r.Cover))
      (pr.map (fun q => q.CoverPrice))
    combineFirst dp4 (default_price openCol)

/-- The value left in the masked-assignment series at a timestamp: the
explicit price of the pair latest in iteration order whose signal is true
there (the loop overwrites earlier assignments), NaN when no signal is
true. -/
def lastActivePrice (r : SigRow) (p : PriceRow) : Option ℚ :=
  if r.Cover then p.CoverPrice
  else if r.Short then p.ShortPrice
  else if r.Sell then p.SellPrice
  else if r.Buy then p.BuyPrice
  else none

/-- Signal selector for the canonical pair order Buy, Sell, Short, Cover. -/
def sigSel : Fin 4 → SigRow → Bool
  | 0, r => r.Buy
  | 1, r => r.Sell
  | 2, r => r.Short
  | 3, r => r.Cover

/-- Price selector for the canonical pair order. -/
def prSel : Fin 4 → PriceRow → Option ℚ
  | 0, q => q.BuyPrice
  | 1, q => q.SellPrice
  | 2, q => q.ShortPrice
  | 3, q => q.CoverPrice

/-- Number of true signals at one timestamp. -/
def activeCount (r : SigRow) : Nat :=
  (if r.Buy then 1 else 0) + (if r.Sell then 1 else 0) +
    (if r.Short then 1 else 0) + (if r.Cover then 1 else 0)

/- ### Pointwise lemmas for the price resolver -/

theorem maskAssign_getElem (dp : List (Option ℚ)) (ss : List Bool)
    (ps : List (Option ℚ)) (i : Nat) (d : Option ℚ) (s : Bool) (q : Option ℚ)
    (hd : dp[i]? = some d) (hs : ss[i]? = some s) (hq : ps[i]? = some q) :
    (maskAssign dp ss ps)[i]? = some (if s then q else d) := by
  induction dp generalizing ss ps i with
  | nil => simp at hd
  | cons x xs ih =>
    cases ss with
    | nil => simp at hs
    | cons b bs =>
      cases ps with
      | nil => simp at hq
      | cons y ys =>
        cases i with
        | zero =>
          simp at hd hs hq
          simp [maskAssign, hd, hs, hq]
        | succ j =>
          simp at hd hs hq
          simpa [maskAssign] using ih bs ys j hd hs hq

theorem combineFirst_getElem (a b : List (Option ℚ)) (i : Nat)
    (x y : Option ℚ) (ha : a[i]? = some x) (hb : b[i]? = some y) :
    (combineFirst a b)[i]? = some (orDefault x y) := by
  induction a generalizing b i with
  | nil => simp at ha
  | cons z zs ih =>
    cases b with
    | nil => simp at hb
    | cons w ws =>
      cases i with
      | zero =>
        simp at ha hb
        simp [combineFirst, ha, hb]
      | succ j =>
        simp at ha hb
        simpa [combineFirst] using ih ws j ha hb

/-- The resolved price at any timestamp is the last active pair's explicit
price when that is defined, and the default price otherwise. -/
theorem trade_price_getElem (pr : List PriceRow) (sig : List SigRow)
    (openCol : List (Option ℚ)) (t : Nat) (r : SigRow) (p : PriceRow)
    (dv : Option ℚ) (hr : sig[t]? = some r) (hp : pr[t]? = some p)
    (hd : (default_price openCol)[t]? = some dv) :
    (trade_price (some pr) sig openCol)[t]? =
      some (orDefault (lastActivePrice r p) dv) := by
  have ht : t < pr.length := by
    by_contra hcon
    rw [List.getElem?_eq_none (by omega)] at hp
    exact Option.noConfusion hp
  have h0 : (List.replicate pr.length (none : Option ℚ))[t]? = some none := by
    simp [List.getElem?_replicate, ht]
  have hbuy : (sig.map (fun r => r.Buy))[t]? = some r.Buy := by
    simp [List.getElem?_map, hr]
  have hsell : (sig.map (fun r => r.Sell))[t]? = some r.Sell := by
    simp [List.getElem?_map, hr]
  have hshort : (sig.map (fun r => r.Short))[t]? = some r.Short := by
    simp [List.getElem?_map, hr]
  have hcover : (sig.map (fun r => r.Cover))[t]? = some r.Cover := by
    simp [List.getElem?_map, hr]
  have hbp : (pr.map (fun q => q.BuyPrice))[t]? = some p.BuyPrice := by
    simp [List.getElem?_map, hp]
  have hsp : (pr.map (fun q => q.SellPrice))[t]? = some p.SellPrice := by
    simp [List.getElem?_map, hp]
  have hshp : (pr.map (fun q => q.ShortPrice))[t]? = some p.ShortPrice := by
    simp [List.getElem?_map, hp]
  have hcp : (pr.map (fun q => q.CoverPrice))[t]? = some p.CoverPrice := by
    simp [List.getElem?_map, hp]
  have h1 := maskAssign_getElem _ _ _ t _ _ _ h0 hbuy hbp
  have h2 := maskAssign_getElem _ _ _ t _ _ _ h1 hsell hsp
  have h3 := maskAssign_getElem _ _ _ t _ _ _ h2 hshort hshp
  have h4 := maskAssign_getElem _ _ _ t _ _ _ h3 hcover hcp
  have h5 := combineFirst_getElem _ _ t _ _ h4 hd
  exact h5

/-- C3.  With no price fields supplied (`prices` absent), the resolved
trade price equals the default next-bar-open price pointwise at every
timestamp. -/
theorem C3_no_prices_resolved_eq_default (sig : List SigRow)
    (openCol : List (Option ℚ)) (t : Nat) :
    (trade_price none sig openCol)[t]? = (default_price openCol)[t]? := rfl

/-- C4 (counterexample).  At timestamp 0 the Buy signal is true with an
explicit non-missing BuyPrice of 5, yet the resolved price is the default
20, because the later Sell pair is also active and its NaN price overwrites
the 5 before the default fill. -/
theorem C4_counterexample :
    (trade_price (some [⟨some 5, none, none, none⟩, ⟨none, none, none, none⟩])
        [⟨true, true, false, false⟩, ⟨false, false, false, false⟩]
        [some 10, some 20])[0]? = some (some 20) ∧ (20 : ℚ) ≠ 5 := by
  exact ⟨by decide, by decide⟩

/-- C4 (amended).  At a timestamp where at most one signal is true: when
that signal's paired explicit price is non-missing the resolved price
equals it, and otherwise (price missing, or no signal true) the resolved
price equals the default next-bar open.  The concrete scenario
buyprice = [NaN, 9.5, NaN, NaN], buy = [F,T,F,F] resolves to the default
everywhere except t1, where it is 9.5. -/
theorem C4_resolved_price_single_active (pr : List PriceRow)
    (sig : List SigRow) (openCol : List (Option ℚ)) (t : Nat) (r : SigRow)
    (p : PriceRow) (dv : Option ℚ) (hr : sig[t]? = some r)
    (hp : pr[t]? = some p) (hd : (default_price openCol)[t]? = some dv)
    (hu : activeCount r ≤ 1) :
    (∀ k v, sigSel k r = true → prSel k p = some v →
      (trade_price (some pr) sig openCol)[t]? = some (some v)) ∧
    ((∀ k, sigSel k r = true → prSel k p = none) →
      (trade_price (some pr) sig openCol)[t]? = some dv) ∧
    trade_price
        (some [⟨none, none, none, none⟩, ⟨some (19/2), none, none, none⟩,
          ⟨none, none, none, none⟩, ⟨none, none, none, none⟩])
        [⟨false, false, false, false⟩, ⟨true, false, false, false⟩,
          ⟨false, false, false, false⟩, ⟨false, false, false, false⟩]
        [some 1, some 2, some 3, some 4] =
      [some 2, some (19/2), some 4, none] := by
  have hmain := trade_price_getElem pr sig openCol t r p dv hr hp hd
  refine ⟨?_, ?_, rfl⟩
  · intro k v hk hv
    rw [hmain]
    congr 1
    obtain ⟨b1, b2, b3, b4⟩ := r
    fin_cases k <;>
      simp_all [sigSel, prSel, activeCount, lastActivePrice, orDefault] <;>
      (cases b1 <;> cases b2 <;> cases b3 <;> cases b4 <;> simp_all)
  · intro hnone
    rw [hmain]
    congr 1
    obtain ⟨b1, b2, b3, b4⟩ := r
    have h0 := hnone 0
    have h1 := hnone 1
    have h2 := hnone 2
    have h3 := hnone 3
    simp [sigSel] at h0 h1 h2 h3
    cases b1 <;> cases b2 <;> cases b3 <;> cases b4 <;>
      simp_all [lastActivePrice, prSel, orDefault]

/-- Witness for C4's amended theorem at a concrete input. -/
theorem C4_witness :
    (trade_price (some [⟨some 9, none, none, none⟩])
      [⟨true, false, false, false⟩] [some 1])[0]? = some (some 9) :=
  (C4_resolved_price_single_active [⟨some 9, none, none, none⟩]
    [⟨true, false, false, false⟩] [some 1] 0 ⟨true, false, false, false⟩
    ⟨some 9, none, none, none⟩ none (by decide) (by decide) (by decide)
    (by decide)).1 0 9 (by decide) (by decide)

/-- C5 (counterexample).  Buy and Sell are both active at timestamp 0 with
explicit prices 5 and 7; the claimed first-match rule would resolve to
BuyPrice = 5, but the loop's later assignment overwrites and the resolved
price is SellPrice = 7. -/
theorem C5_counterexample :
    (trade_price (some [⟨some 5, some 7, none, none⟩])
        [⟨true, true, false, false⟩] [some 10])[0]? = some (some 7) ∧
      (7 : ℚ) ≠ 5 := by
  exact ⟨by decide, by decide⟩

/-- C5 (amended).  When several of the four (signal, price) pairs are
active at the same timestamp, the pair latest in the iteration order
(BuyPrice, SellPrice, ShortPrice, CoverPrice) determines the assigned
value: each later masked assignment overwrites earlier ones, so the
resolved price is the last active pair's explicit price when defined and
the default otherwise. -/
theorem C5_last_active_pair_wins (pr : List PriceRow) (sig : List SigRow)
    (openCol : List (Option ℚ)) (t : Nat) (r : SigRow) (p : PriceRow)
    (dv : Option ℚ) (hr : sig[t]? = some r) (hp : pr[t]? = some p)
    (hd : (default_price openCol)[t]? = some dv) :
    (∀ v, lastActivePrice r p = some v →
      (trade_price (some pr) sig openCol)[t]? = some (some v)) ∧
    (lastActivePrice r p = none →
      (trade_price (some pr) sig openCol)[t]? = some dv) := by
  have hmain := trade_price_getElem pr sig openCol t r p dv hr hp hd
  constructor
  · intro v hv
    rw [hmain, hv]
    rfl
  · intro hv
    rw [hmain, hv]
    rfl

/-- Witness for C5's amended theorem at a concrete input. -/
theorem C5_witness :
    (trade_price (some [⟨none, none, none, some 3⟩])
      [⟨false, false, false, true⟩] [some 1])[0]? = some (some 3) :=
  (C5_last_active_pair_wins [⟨none, none, none, some 3⟩]
    [⟨false, false, false, true⟩] [some 1] 0 ⟨false, false, false, true⟩
    ⟨none, none, none, some 3⟩ none (by decide) (by decide) (by decide)).1
    3 (by decide)

/-- Modelled from the spec: the position state machine of
`parts.signals_to_positions`, whose source (the `parts` module) is not in
the repository snapshot.  State is Flat, Long or Short; initial state
Flat. -/
inductive PosState
  | Flat
  | Long
  | Short
deriving DecidableEq

/-- Modelled from the spec: one bar of the position state machine.  The
signals are read in the fixed priority order Cover, Buy, Sell, Short, each
guarded transition applying to the state left by the previous one, so that
e.g. Cover and Buy on the same bar both register and net to a single
transition: Buy while not Long enters Long, Short while not Short enters
Short, Sell while Long and Cover while Short exit to Flat; otherwise the
state persists. -/
def applyRules (st : PosState) (r : SigRow) : PosState :=
  let s1 := if r.Cover = true ∧ st = PosState.Short then PosState.Flat else st
  let s2 := if r.Buy = true ∧ s1 ≠ PosState.Long then PosState.Long else s1
  let s3 := if r.Sell = true ∧ s2 = PosState.Long then PosState.Flat else s2
  if r.Short = true ∧ s3 ≠ PosState.Short then PosState.Short else s3

/-- Numeric value of a position state: +1 Long, -1 Short, 0 Flat. -/
def stateVal : PosState → Int
  | PosState.Flat => 0
  | PosState.Long => 1
  | PosState.Short => -1

/-- Modelled from the spec: the single left-to-right pass of
`parts.signals_to_positions`, carrying the current state and whether a real
transition has happened yet; bars before the first transition yield NaN,
later bars yield the numeric state value. -/
def positionsAux : PosState → Bool → List SigRow → List (Option Int)
  | _, _, [] => []
  | st, started, r :: rs =>
    let st2 := applyRules st r
    let started2 := started || decide (st2 ≠ st)
    (if started2 = true then some (stateVal st2) else none) ::
      positionsAux st2 started2 rs

/-- Modelled from the spec: `parts.signals_to_positions` on the four
canonical signal columns, starting Flat and not yet started. -/
def signals_to_positions (sig : List SigRow) : List (Option Int) :=
  positionsAux PosState.Flat false sig

/-- The machine state entering bar `t` (after processing bars `0..t-1`). -/
def stateAfter (sig : List SigRow) (t : Nat) : PosState :=
  (sig.take t).foldl applyRules PosState.Flat

/- ### Lemmas about the position pass -/

theorem posAux_started (sig : List SigRow) (st : PosState) (t : Nat)
    (ht : t < sig.length) :
    (positionsAux st true sig)[t]? =
      some (some (stateVal ((sig.take (t + 1)).foldl applyRules st))) := by
  induction sig generalizing st t with
  | nil => simp at ht
  | cons r rs ih =>
    cases t with
    | zero => simp [positionsAux]
    | succ m =>
      have hm : m < rs.length := by simpa using ht
      simp only [positionsAux, Bool.true_or, List.getElem?_cons_succ,
        List.take_succ_cons, List.foldl_cons]
      exact ih (applyRules st r) m hm

theorem posAux_unstarted_none (sig : List SigRow) (st : PosState) (t : Nat)
    (ht : t < sig.length) :
    (positionsAux st false sig)[t]? = some none ↔
      ∀ j, j ≤ t →
        (sig.take (j + 1)).foldl applyRules st =
          (sig.take j).foldl applyRules st := by
  induction sig generalizing st t with
  | nil => simp at ht
  | cons r rs ih =>
    by_cases hch : applyRules st r = st
    · cases t with
      | zero =>
        constructor
        · intro _ j hj
          interval_cases j
          simpa using hch
        · intro _
          simp [positionsAux, hch]
      | succ m =>
        have hm : m < rs.length := by simpa using ht
        have heq : (positionsAux st false (r :: rs))[m + 1]? =
            (positionsAux st false rs)[m]? := by
          simp [positionsAux, hch]
        rw [heq, ih st m hm]
        constructor
        · intro h j hj
          cases j with
          | zero => simpa using hch
          | succ k =>
            have hk : k ≤ m := by omega
            have := h k hk
            simpa [hch] using this
        · intro h k hk
          have := h (k + 1) (by omega)
          simpa [hch] using this
    · have hstart : (positionsAux st false (r :: rs)) =
          some (stateVal (applyRules st r)) ::
            positionsAux (applyRules st r) true rs := by
        simp [positionsAux, hch]
      constructor
      · intro h
        exfalso
        cases t with
        | zero => simp [hstart] at h
        | succ m =>
          have hm : m < rs.length := by simpa using ht
          rw [hstart] at h
          simp only [List.getElem?_cons_succ] at h
          rw [posAux_started rs (applyRules st r) m hm] at h
          simp at h
      · intro h
        exfalso
        have := h 0 (Nat.zero_le t)
        simp at this
        exact hch this

theorem posAux_unstarted_some (sig : List SigRow) (st : PosState) (t : Nat)
    (ht : t < sig.length)
    (hex : ∃ j, j ≤ t ∧ (sig.take (j + 1)).foldl applyRules st ≠
      (sig.take j).foldl applyRules st) :
    (positionsAux st false sig)[t]? =
      some (some (stateVal ((sig.take (t + 1)).foldl applyRules st))) := by
  induction sig generalizing st t with
  | nil => simp at ht
  | cons r rs ih =>
    by_cases hch : applyRules st r = st
    · cases t with
      | zero =>
        exfalso
        obtain ⟨j, hj, hne⟩ := hex
        interval_cases j
        simp at hne
        exact hne hch
      | succ m =>
        have hm : m < rs.length := by simpa using ht
        have heq : (positionsAux st false (r :: rs))[m + 1]? =
            (positionsAux st false rs)[m]? := by
          simp [positionsAux, hch]
        rw [heq]
        have hex2 : ∃ j, j ≤ m ∧ (rs.take (j + 1)).foldl applyRules st ≠
            (rs.take j).foldl applyRules st := by
          obtain ⟨j, hj, hne⟩ := hex
          cases j with
          | zero =>
            exfalso
            simp at hne
            exact hne hch
          | succ k =>
            refine ⟨k, by omega, ?_⟩
            simpa [hch] using hne
        rw [ih st m hm hex2]
        simp [hch]
    · cases t with
      | zero =>
        simp [positionsAux, hch]
      | succ m =>
        have hm : m < rs.length := by simpa using ht
        have hstart : (positionsAux st false (r :: rs)) =
            some (stateVal (applyRules st r)) ::
              positionsAux (applyRules st r) true rs := by
          simp [positionsAux, hch]
        rw [hstart]
        simp only [List.getElem?_cons_succ, List.take_succ_cons,
          List.foldl_cons]
        exact posAux_started rs (applyRules st r) m hm

/-- C7.  The position series is NaN (not zero) at every bar up to which no
signal has caused a real state transition, and from the first transition on
it carries the numeric state value: +1 while Long, -1 while Short, 0 while
Flat-after-having-traded. -/
theorem C7_positions_undefined_before_first_transition (sig : List SigRow)
    (t : Nat) (ht : t < sig.length) :
    ((signals_to_positions sig)[t]? = some none ↔
      ∀ j, j ≤ t → stateAfter sig (j + 1) = stateAfter sig j) ∧
    ((∃ j, j ≤ t ∧ stateAfter sig (j + 1) ≠ stateAfter sig j) →
      (signals_to_positions sig)[t]? =
        some (some (stateVal (stateAfter sig (t + 1))))) := by
  constructor
  · exact posAux_unstarted_none sig PosState.Flat t ht
  · exact posAux_unstarted_some sig PosState.Flat t ht

/-- Witness for C7 at a concrete input. -/
theorem C7_witness :
    (signals_to_positions [⟨true, false, false, false⟩])[0]? =
      some (some (stateVal (stateAfter [⟨true, false, false, false⟩] 1))) :=
  (C7_positions_undefined_before_first_transition
    [⟨true, false, false, false⟩] 0 (by decide)).2 ⟨0, Nat.le_refl 0, by decide⟩

theorem applyRules_long (r : SigRow) (hSell : r.Sell = false)
    (hShort : r.Short = false) : applyRules PosState.Long r = PosState.Long := by
  obtain ⟨b1, b2, b3, b4⟩ := r
  simp at hSell hShort
  subst hSell hShort
  cases b1 <;> cases b4 <;> simp [applyRules]

theorem stateAfter_succ_of_getElem (sig : List SigRow) (t : Nat) (r : SigRow)
    (hr : sig[t]? = some r) :
    stateAfter sig (t + 1) = applyRules (stateAfter sig t) r := by
  unfold stateAfter
  rw [List.take_succ, hr]
  simp

theorem stateAfter_flat_of_no_change (sig : List SigRow) (t : Nat)
    (h : ∀ j, j < t → stateAfter sig (j + 1) = stateAfter sig j) :
    stateAfter sig t = PosState.Flat := by
  induction t with
  | zero => rfl
  | succ m ih =>
    rw [h m (by omega)]
    exact ih (fun j hj => h j (by omega))

/-- C8 (counterexample).  State Long at bar 1 where Buy is true and no exit
signal (Sell, Cover) applies, yet because Short is also true the modelled
state machine leaves Long: the state flips to Short and the position value
changes from +1 to -1, refuting idempotence as claimed. -/
theorem C8_counterexample :
    stateAfter [⟨true, false, false, false⟩, ⟨true, false, true, false⟩] 1 =
        PosState.Long ∧
      (⟨true, false, true, false⟩ : SigRow).Buy = true ∧
      (⟨true, false, true, false⟩ : SigRow).Sell = false ∧
      (⟨true, false, true, false⟩ : SigRow).Cover = false ∧
      stateAfter [⟨true, false, false, false⟩, ⟨true, false, true, false⟩] 2 =
        PosState.Short ∧
      signals_to_positions
          [⟨true, false, false, false⟩, ⟨true, false, true, false⟩] =
        [some 1, some (-1)] := by
  decide

/-- C8 (amended).  While already Long, a bar with Buy true and with neither
Sell nor Short true causes no transition: the state stays Long, the
position value is unchanged at +1 (both at that bar and the previous one),
and when that bar and its predecessor appear as consecutive trade-ledger
rows the volume recorded at that bar is zero. -/
theorem C8_repeated_buy_idempotent (sig : List SigRow) (t : Nat) (r : SigRow)
    (ht : t < sig.length) (hr : sig[t]? = some r)
    (hLong : stateAfter sig t = PosState.Long) (hBuy : r.Buy = true)
    (hSell : r.Sell = false) (hShort : r.Short = false) :
    stateAfter sig (t + 1) = PosState.Long ∧
    (signals_to_positions sig)[t]? = some (some 1) ∧
    (signals_to_positions sig)[t - 1]? = some (some 1) ∧
    ∀ (price : List (Option ℚ)) (i : Nat) (r1 r2 : TradeRow),
      (trades (signals_to_positions sig) price)[i]? = some r1 →
      (trades (signals_to_positions sig) price)[i + 1]? = some r2 →
      r1.t = t - 1 → r2.t = t → r2.vol = some 0 := by
  have hnext : stateAfter sig (t + 1) = PosState.Long := by
    rw [stateAfter_succ_of_getElem sig t r hr, hLong]
    exact applyRules_long r hSell hShort
  have ht0 : 1 ≤ t := by
    rcases Nat.eq_zero_or_pos t with h0 | h1
    · exfalso
      rw [h0] at hLong
      exact PosState.noConfusion hLong
    · exact h1
  have hex : ∃ j, j < t ∧ stateAfter sig (j + 1) ≠ stateAfter sig j := by
    by_contra hcon
    push_neg at hcon
    rw [stateAfter_flat_of_no_change sig t hcon] at hLong
    exact PosState.noConfusion hLong
  obtain ⟨j, hj, hne⟩ := hex
  have hpt : (signals_to_positions sig)[t]? = some (some 1) := by
    show (positionsAux PosState.Flat false sig)[t]? = some (some 1)
    have hsome := posAux_unstarted_some sig PosState.Flat t ht ⟨j, by omega, hne⟩
    rw [hsome, show List.foldl applyRules PosState.Flat (List.take (t + 1) sig) =
      PosState.Long from hnext]
    rfl
  have hpt1 : (signals_to_positions sig)[t - 1]? = some (some 1) := by
    have hlt : t - 1 < sig.length := by omega
    have hjle : j ≤ t - 1 := by omega
    show (positionsAux PosState.Flat false sig)[t - 1]? = some (some 1)
    have harith : t - 1 + 1 = t := by omega
    have hsome := posAux_unstarted_some sig PosState.Flat (t - 1) hlt ⟨j, hjle, hne⟩
    rw [harith] at hsome
    rw [hsome, show List.foldl applyRules PosState.Flat (List.take t sig) =
      PosState.Long from hLong]
    rfl
  refine ⟨hnext, hpt, hpt1, ?_⟩
  intro price i r1 r2 h1 h2 ht1 ht2
  have hvol := addVol_diff _ none i r1 r2 h1 h2
  have hm1 : r1 ∈ trades (signals_to_positions sig) price :=
    List.getElem?_mem h1
  have hm2 : r2 ∈ trades (signals_to_positions sig) price :=
    List.getElem?_mem h2
  have hd1 := (trades_mem_defined _ _ r1 hm1).1
  have hd2 := (trades_mem_defined _ _ r2 hm2).1
  rw [ht1, hpt1] at hd1
  rw [ht2, hpt] at hd2
  have hp1 : r1.pos = 1 := by
    have := Option.some.inj (Option.some.inj hd1)
    omega
  have hp2 : r2.pos = 1 := by
    have := Option.some.inj (Option.some.inj hd2)
    omega
  rw [hvol, hp1, hp2]
  rfl

/-- Witness for C8's amended theorem at a concrete input. -/
theorem C8_witness : (⟨1, 1, 6, some 0⟩ : TradeRow).vol = some 0 :=
  (C8_repeated_buy_idempotent
    [⟨true, false, false, false⟩, ⟨true, false, false, false⟩] 1
    ⟨true, false, false, false⟩ (by decide) (by decide) (by decide)
    (by decide) (by decide) (by decide)).2.2.2 [some 5, some 6] 0
    ⟨0, 1, 5, none⟩ ⟨1, 1, 6, some 0⟩ (by decide) (by decide) (by decide)
    (by decide)

/-- C2 (counterexample).  One Buy bar with default next-bar-open pricing:
the position is defined (+1) at timestamp 0, but its default price (the
open of the nonexistent next bar) is NaN, so `dropna` discards the row and
the ledger is empty — a timestamp with a defined position that does not
appear in the trades result. -/
theorem C2_counterexample :
    (signals_to_positions [⟨true, false, false, false⟩])[0]? =
        some (some 1) ∧
      trades (signals_to_positions [⟨true, false, false, false⟩])
        (trade_price none [⟨true, false, false, false⟩] [some 10]) = [] := by
  decide

/-- C9.  Concrete 4-bar scenario: buy = [T,F,F,F], sell = [F,F,T,F], no
short/cover, no price fields, underlying opens giving default prices
[10,11,12,13] on the four signal bars.  The position series is [1,1,0,0],
all four rows survive, volumes are [NaN,0,-1,0] and the resolved price is
the default price throughout. -/
theorem C9_concrete_scenario :
    signals_to_positions
        [⟨true, false, false, false⟩, ⟨false, false, false, false⟩,
          ⟨false, true, false, false⟩, ⟨false, false, false, false⟩] =
      [some 1, some 1, some 0, some 0] ∧
    trades
        (signals_to_positions
          [⟨true, false, false, false⟩, ⟨false, false, false, false⟩,
            ⟨false, true, false, false⟩, ⟨false, false, false, false⟩])
        (trade_price none
          [⟨true, false, false, false⟩, ⟨false, false, false, false⟩,
            ⟨false, true, false, false⟩, ⟨false, false, false, false⟩]
          [some 9, some 10, some 11, some 12, some 13]) =
      [⟨0, 1, 10, none⟩, ⟨1, 1, 11, some 0⟩, ⟨2, 0, 12, some (-1)⟩,
        ⟨3, 0, 13, some 0⟩] ∧
    trade_price none
        [⟨true, false, false, false⟩, ⟨false, false, false, false⟩,
          ⟨false, true, false, false⟩, ⟨false, false, false, false⟩]
        [some 9, some 10, some 11, some 12, some 13] =
      default_price [some 9, some 10, some 11, some 12, some 13] := by
  decide

/-- The OHLC bars table of the input mapping; only its open column is used
by the core pipeline. -/
structure Frame where
  O : List (Option ℚ)
deriving DecidableEq

/-- `Backtest._ohlc_possible_fields`: candidate names for the bars table,
scanned in this order. -/
def _ohlc_possible_fields : List String := ["ohlc", "bars", "ohlcv"]

/-- The loop body of `Backtest.ohlc`: try each candidate name against the
(lowercased-key) data mapping and return the first hit; raise if none. -/
def ohlcScan (d : List (String × Frame)) : List String → Except String Frame
  | [] => Except.error "Bars dataframe was not found in dataobj"
  | nm :: rest =>
    match d.lookup nm with
    | some s => Except.ok s
    | none => ohlcScan d rest

/-- `Backtest.ohlc`: locate the bars table under one of the fixed candidate
names, in order, or fail. -/
def ohlc (d : List (String × Frame)) : Except String Frame :=
  ohlcScan d _ohlc_possible_fields

/-- A derived result of the backtest instance: the default price requires
the bars table, so the ohlc failure propagates to it (as it does to every
derived result, all of which read `self.ohlc`). -/
def bt_default_price (d : List (String × Frame)) :
    Except String (List (Option ℚ)) :=
  (ohlc d).map (fun f => default_price f.O)

/-- C6.  The bars lookup scans the fixed candidate list
("ohlc", "bars", "ohlcv") in order and returns the first field found; when
none of the names is present it raises the fatal error, and a derived
result such as the default price cannot be produced. -/
theorem C6_ohlc_first_match_or_error (d : List (String × Frame)) :
    ((∀ nm ∈ _ohlc_possible_fields, d.lookup nm = none) →
      ohlc d = Except.error "Bars dataframe was not found in dataobj" ∧
      bt_default_price d =
        Except.error "Bars dataframe was not found in dataobj") ∧
    (∀ f, d.lookup "ohlc" = some f → ohlc d = Except.ok f) ∧
    (∀ f, d.lookup "ohlc" = none → d.lookup "bars" = some f →
      ohlc d = Except.ok f) ∧
    (∀ f, d.lookup "ohlc" = none → d.lookup "bars" = none →
      d.lookup "ohlcv" = some f → ohlc d = Except.ok f) := by
  refine ⟨?_, ?_, ?_, ?_⟩
  · intro hall
    have h1 := hall "ohlc" (by simp [_ohlc_possible_fields])
    have h2 := hall "bars" (by simp [_ohlc_possible_fields])
    have h3 := hall "ohlcv" (by simp [_ohlc_possible_fields])
    constructor
    · simp [ohlc, _ohlc_possible_fields, ohlcScan, h1, h2, h3]
    · simp [bt_default_price, ohlc, _ohlc_possible_fields, ohlcScan,
        h1, h2, h3, Except.map]
  · intro f hf
    simp [ohlc, _ohlc_possible_fields, ohlcScan, hf]
  · intro f h1 h2
    simp [ohlc, _ohlc_possible_fields, ohlcScan, h1, h2]
  · intro f h1 h2 h3
    simp [ohlc, _ohlc_possible_fields, ohlcScan, h1, h2, h3]

/-- Witness for C6 at a concrete input. -/
theorem C6_witness :
    ohlc [("bars", ⟨[some 1]⟩)] = Except.ok (⟨[some 1]⟩ : Frame) :=
  (C6_ohlc_first_match_or_error [("bars", ⟨[some 1]⟩)]).2.2.1 ⟨[some 1]⟩
    (by decide) (by decide)

end Pybacktest
